import Mathlib

/-
Verification of core behaviours of the sunwalker-invoker repository.

The definitions below are shallow embeddings of the Rust sources:
  - multiprocessing/src/ipc.rs, tokio.rs, imp.rs  (typed channel, spawn, join)
  - src/image/package.rs                          (sandbox build / teardown)
  - src/cgroups.rs                                (root-cpuset creation)
  - src/problem/problem.rs                        (test dependency graph)

Machine integers that matter only as identifiers (pids, fds, test ids,
bytes) are modelled as Nat/Int; fallible operations return Except/Option.
Syscall-level effects (mounts, waitpid outcomes, datagram reads) are
modelled as explicit state or as event lists fed to the embedded control
flow, which itself is a line-by-line translation of the Rust.
-/

deriving instance DecidableEq for Except

namespace Sunwalker

/- ===================================================================
   multiprocessing/src/imp.rs and tokio.rs: the sentinel argv protocol
   =================================================================== -/

namespace Mp

/-- The sentinel placed in argv[0] by spawn (tokio.rs line 296, imp.rs line 38). -/
def sentinel : String := "_multiprocessing_"

/-- Decimal-digit run to a number, as Rust str::parse does after the sign:
fails on an empty digit string or any non-digit character. -/
def parseNatDigits : List Char → Option Nat
  | [] => none
  | cs => cs.foldl
      (fun acc c =>
        match acc with
        | none => none
        | some n => if c.isDigit then some (n * 10 + (c.toNat - 48)) else none)
      (some 0)

/-- Rust str::parse::<i32> (RawFd = c_int = i32): an optional sign followed by
at least one digit, with the value required to fit in i32. -/
def parseI32 (s : String) : Option Int :=
  let cs := s.toList
  let signed : Int × List Char :=
    match cs with
    | c :: rest => if c = '-' then (-1, rest) else if c = '+' then (1, rest) else (1, cs)
    | [] => (1, cs)
  match parseNatDigits signed.2 with
  | none => none
  | some n =>
      let v : Int := signed.1 * (n : Int)
      if -(2 ^ 31) ≤ v ∧ v ≤ 2 ^ 31 - 1 then some v else none

/-- Full argv (argv[0] included) of the child process launched by
multiprocessing::tokio::spawn (tokio.rs lines 293-303): arg0 is the sentinel
and the one further argument is the decimal number of the duplex fd whose
CLOEXEC flag the pre_exec hook clears. -/
def tokioSpawnArgv (childFd : Int) : List String :=
  [sentinel, toString childFd]

/-- What the process entry does, as decided by multiprocessing::imp::main. -/
inductive MainAction where
  /-- Sentinel branch: three fds parsed; CLOEXEC is re-enabled on each fd in
  the recorded order before the boxed closure is received from the entry fd. -/
  | runEntry (entryFd inputFd outputFd : Int) (cloexecReEnabled : List Int)
  /-- No sentinel: the registered MAIN_ENTRY application main runs. -/
  | runMain
  /-- An expect() in the sentinel branch failed (missing or non-integer argument). -/
  | panicked
deriving DecidableEq, Repr

/-- multiprocessing::imp::main (imp.rs lines 35-79): if argv[0] equals the
sentinel, parse argv[1..4] as three decimal fds, re-enable CLOEXEC on each
(entry, input, output in that order) and run the received entry closure;
otherwise run the registered application main. -/
def impMain (argv : List String) : MainAction :=
  match argv with
  | [] => .runMain
  | arg0 :: rest =>
    if arg0 = sentinel then
      match rest with
      | a :: b :: c :: _ =>
        match parseI32 a, parseI32 b, parseI32 c with
        | some x, some y, some z => .runEntry x y z [x, y, z]
        | _, _, _ => .panicked
      | _ => .panicked
    else .runMain

/- ===================================================================
   multiprocessing/src/tokio.rs: Child::join
   =================================================================== -/

/-- An io::Error, identified by its message (the join code constructs its two
errors from fixed messages; propagated errors are arbitrary). -/
structure IOErr where
  msg : String
deriving DecidableEq, Repr

/-- Exit of a process as waited on: a normal exit with a code, or a
signal-caused death. ExitStatus::success() is true exactly for a normal exit
with code 0. -/
inductive ExitKind where
  | exited (code : Nat)
  | signaled (sig : Nat)
deriving DecidableEq, Repr

/-- std::process::ExitStatus::success(). -/
def ExitKind.success : ExitKind → Bool
  | .exited c => c == 0
  | .signaled _ => false

/-- Message of the error built by join when the process exited 0 without a value. -/
def noValueMsg : String := "The subprocess terminated without returning a value"

/-- Message of the error built by join when the process did not exit successfully. -/
def processFailedMsg : String := "The subprocess did not terminate successfully"

/-- multiprocessing::tokio::Child::join (tokio.rs lines 270-285): first the
result of output_rx.recv() (an error aborts before waiting), then the result
of proc.wait(); on success of both, the received optional value and the exit
status decide the outcome. -/
def join {α : Type} (recvResult : Except IOErr (Option α))
    (waitResult : Except IOErr ExitKind) : Except IOErr α :=
  match recvResult with
  | .error e => .error e
  | .ok value =>
    match waitResult with
    | .error e => .error e
    | .ok status =>
      if status.success then
        match value with
        | some v => .ok v
        | none => .error ⟨noValueMsg⟩
      else .error ⟨processFailedMsg⟩

end Mp

/- ===================================================================
   multiprocessing/src/ipc.rs (and the identical loop in tokio.rs):
   the packet framing of Sender::send and Receiver::recv
   =================================================================== -/

namespace Ipc

/-- ipc.rs line 10. -/
def MAX_PACKET_SIZE : Nat := 16 * 1024

/-- One SOCK_SEQPACKET datagram as the send loop emits it: the leading marker
byte, the payload bytes after it, and the fds attached as SCM_RIGHTS. -/
structure Packet where
  marker : Nat
  payload : List Nat
  fds : List Nat
deriving DecidableEq, Repr

inductive ChanError where
  /-- The io::Error "Too many fds to pass" (ipc.rs line 87). -/
  | tooManyFds
deriving DecidableEq, Repr

/-- CMSG_ALIGN on x86-64 Linux: round up to a multiple of 8. -/
def cmsgAlign (n : Nat) : Nat := (n + 7) / 8 * 8

/-- CMSG_SPACE(dataLen): the aligned data plus the aligned 16-byte cmsghdr. -/
def cmsgSpace (dataLen : Nat) : Nat := cmsgAlign dataLen + 16

/-- SocketAncillary::add_fds (std, and the tokio-seqpacket copy of it) on a
fresh ancillary over a buffer of bufLen bytes: it succeeds iff
CMSG_SPACE(4 * n) bytes fit in the buffer, a RawFd being 4 bytes. -/
def addFdsOk (bufLen n : Nat) : Bool := cmsgSpace (4 * n) ≤ bufLen

/-- Size of the ancillary_buffer array in Sender::send and send_on_fd:
let mut ancillary_buffer = [0; 253] declares 253 BYTES (ipc.rs line 73). -/
def ancillaryBufLen : Nat := 253

/-- The send loop of Sender::send (ipc.rs lines 79-103) and send_on_fd
(tokio.rs lines 60-86), one packet per iteration, assuming each
send_vectored_with_ancillary call transfers its whole slice (the code's own
assumption, it advances buffer_pos by n_written - 1 without a retry loop).
The fuel argument only bounds the modelled recursion; no claim is made about
the none (fuel ran out) result, and the loop in fact stops long before
serialized.length + fds.length + 1 iterations. -/
def sendLoop (serialized fds : List Nat) :
    Nat → Nat → Nat → Option (Except ChanError (List Packet))
  | 0, _, _ => none
  | fuel + 1, bufferPos, fdsPos =>
    let bufferEnd := min serialized.length (bufferPos + (MAX_PACKET_SIZE - 1))
    let fdsEnd := min fds.length (fdsPos + 253)
    let isLast : Bool :=
      bufferEnd == serialized.length && fdsEnd == fds.length
    let chunk := (fds.drop fdsPos).take (fdsEnd - fdsPos)
    if addFdsOk ancillaryBufLen chunk.length then
      let pkt : Packet :=
        ⟨if isLast then 1 else 0,
         (serialized.drop bufferPos).take (bufferEnd - bufferPos), chunk⟩
      if isLast then some (.ok [pkt])
      else
        match sendLoop serialized fds fuel bufferEnd fdsEnd with
        | some (.ok rest) => some (.ok (pkt :: rest))
        | some (.error e) => some (.error e)
        | none => none
    else some (.error .tooManyFds)

/-- Sender::send after serialization: the packets emitted for a serialized
byte buffer and fd list (both cursors start at 0). -/
def send (serialized fds : List Nat) : Option (Except ChanError (List Packet)) :=
  sendLoop serialized fds (serialized.length + fds.length + 1) 0 0

/-- One ancillary control message as recvmsg delivers it. -/
inductive Cmsg where
  | scmRights (fds : List Nat)
  | otherKind
deriving DecidableEq, Repr

/-- One recv_vectored_with_ancillary result: the datagram's bytes (marker
byte included) and its control messages. A closed peer reads as ⟨[], []⟩. -/
structure Datagram where
  bytes : List Nat
  cmsgs : List Cmsg
deriving DecidableEq, Repr

inductive RecvError where
  /-- "Unexpected kind of cmsg on stream" (ipc.rs line 160). -/
  | unexpectedCmsg
  /-- "Unterminated data on stream" (ipc.rs line 171). -/
  | unterminated
  /-- "Unexpected empty message on stream" (ipc.rs line 179). -/
  | unexpectedEmpty
deriving DecidableEq, Repr

/-- What Receiver::recv returns, the deserializer abstracted away: value
carries the accumulated payload bytes and fds handed to Deserializer::from. -/
inductive RecvOutcome where
  | value (bytes fds : List Nat)
  /-- Ok(None): the peer closed before this message started. -/
  | closed
  | failed (e : RecvError)
  /-- The modelled input ran out: recv would block on the socket. -/
  | blocked
deriving DecidableEq, Repr

/-- The cmsg loop of recv (ipc.rs lines 152-163): push every SCM_RIGHTS fd,
fail on any other cmsg kind. -/
def pushRights : List Cmsg → List Nat → Option (List Nat)
  | [], fds => some fds
  | .scmRights r :: rest, fds => pushRights rest (fds ++ r)
  | .otherKind :: _, _ => none

/-- The receive loop of Receiver::recv (ipc.rs lines 138-187) and recv_on_fd
(tokio.rs lines 99-150), run over the list of datagrams the socket will
deliver, with the payload bytes and fds accumulated so far. -/
def recvLoop : List Datagram → List Nat → List Nat → RecvOutcome
  | [], _, _ => .blocked
  | d :: rest, buf, fds =>
    match pushRights d.cmsgs fds with
    | none => .failed .unexpectedCmsg
    | some fds1 =>
      if d.cmsgs.isEmpty && d.bytes.isEmpty then
        if buf.isEmpty && fds1.isEmpty then .closed
        else .failed .unterminated
      else
        match d.bytes with
        | [] => .failed .unexpectedEmpty
        | marker :: payload =>
          if marker = 1 then .value (buf ++ payload) fds1
          else recvLoop rest (buf ++ payload) fds1

/-- Receiver::recv on a fresh message: nothing buffered yet. -/
def recv (ds : List Datagram) : RecvOutcome := recvLoop ds [] []

end Ipc

/- ===================================================================
   src/image/package.rs: the sandbox
   =================================================================== -/

namespace Sandbox

/-- The seven CLONE_* namespace flags or-ed in run_in_sandbox (package.rs
lines 148-157). -/
inductive NsFlag where
  | mount | ipc | net | user | uts | sysvsem | pid
deriving DecidableEq, Repr

/-- One observable action of the forked sandbox child (package.rs lines
146-244), in the order the code performs them. -/
inductive ChildOp where
  | unshare (flags : List NsFlag)
  | raiseSigstop
  | setuid (u : Nat)
  | setgid (g : Nat)
  | bindMount (source target : String) (recursive : Bool)
  | chdir (path : String)
  | pivotRoot (newRoot putOld : String)
  | umountDetach (path : String)
  | setEnv (name value : String)
  | openEnvFile (path : String)
  | invokeUserClosure
  /-- An unwrap()/expect() failed and the catch_unwind scope ends with exit 1. -/
  | panicExit1
deriving DecidableEq, Repr

/-- One NAME=VALUE line of /.sunwalker/env split at its first '=' (package.rs
lines 232-240): none when the line has no '=' (the child panics there). -/
def parseEnvLine (line : String) : Option (String × String) :=
  let cs := line.toList
  if '=' ∈ cs then
    some (⟨cs.takeWhile (fun c => c ≠ '=')⟩, ⟨(cs.dropWhile (fun c => c ≠ '=')).tail⟩)
  else none

/-- The twelve locale defaults plus LD_LIBRARY_PATH set before the package
env file is read (package.rs lines 207-222). -/
def defaultEnvOps : List ChildOp :=
  [ .setEnv "LD_LIBRARY_PATH" "/usr/local/lib64:/usr/local/lib:/usr/lib64:/usr/lib:/lib64:/lib",
    .setEnv "LANGUAGE" "en_US",
    .setEnv "LC_ALL" "en_US.UTF-8",
    .setEnv "LC_ADDRESS" "en_US.UTF-8",
    .setEnv "LC_NAME" "en_US.UTF-8",
    .setEnv "LC_MONETARY" "en_US.UTF-8",
    .setEnv "LC_PAPER" "en_US.UTF-8",
    .setEnv "LC_IDENTIFIER" "en_US.UTF-8",
    .setEnv "LC_TELEPHONE" "en_US.UTF-8",
    .setEnv "LC_MEASUREMENT" "en_US.UTF-8",
    .setEnv "LC_TIME" "en_US.UTF-8",
    .setEnv "LC_NUMERIC" "en_US.UTF-8",
    .setEnv "LANG" "en_US.UTF-8" ]

/-- The per-line tail of the child's trace: a setEnv per parsed env line, the
user closure once every line parsed, a panic at the first line lacking '='. -/
def envTailOps : List String → List ChildOp
  | [] => [.invokeUserClosure]
  | l :: ls =>
    match parseEnvLine l with
    | some (n, v) => .setEnv n v :: envTailOps ls
    | none => [.panicExit1]

/-- The full action trace of the sandbox child of run_in_sandbox (package.rs
lines 146-244), given the lines of the package's /.sunwalker/env file, with
each syscall assumed to succeed (each failure site panics, ending the trace,
and is claimed about only through envTailOps). -/
def childTrace (envLines : List String) : List ChildOp :=
  [ .unshare [.mount, .ipc, .net, .user, .uts, .sysvsem, .pid],
    .raiseSigstop,
    .setuid 0,
    .setgid 0,
    .bindMount "/tmp/worker/overlay" "/tmp/worker/overlay" true,
    .chdir "/tmp/worker/overlay",
    .pivotRoot "." ".",
    .umountDetach ".",
    .chdir "/" ]
  ++ defaultEnvOps
  ++ [.openEnvFile "/.sunwalker/env"]
  ++ envTailOps envLines

/-- The nine operations named by the specification, in their claimed order. -/
def claimedPivotOps : List ChildOp :=
  [ .unshare [.mount, .ipc, .net, .user, .uts, .sysvsem, .pid],
    .raiseSigstop,
    .setuid 0,
    .setgid 0,
    .bindMount "/tmp/worker/overlay" "/tmp/worker/overlay" true,
    .chdir "/tmp/worker/overlay",
    .pivotRoot "." ".",
    .umountDetach ".",
    .chdir "/" ]

/- ------------------------------------------------------------------
   remove_sandbox (package.rs lines 108-135)
   ------------------------------------------------------------------ -/

/-- The mount-table state remove_sandbox acts on: mount targets in mount
order, as /proc/self/mounts lists them, plus the directory trees present. -/
structure FsState where
  mounts : List String
  dirs : List String
deriving DecidableEq, Repr

inductive FsError where
  /-- umount(2) on a path that is no mount point. -/
  | notMounted (path : String)
  /-- std::fs::remove_dir_all on a path that does not exist. -/
  | notFound (path : String)
deriving DecidableEq, Repr

/-- The prefix remove_sandbox filters /proc/self/mounts targets by. -/
def overlayRoot : String := "/tmp/worker/overlay"

/-- Rust str::starts_with, over the character list (String.startsWith of Lean
is the same test but does not evaluate inside the kernel). -/
def strStartsWith (s pre : String) : Bool := pre.toList.isPrefixOf s.toList

/-- umount(2): detach the most recently mounted filesystem at path; an error
when nothing is mounted there. -/
def umountSys (st : FsState) (path : String) : Except FsError FsState :=
  if path ∈ st.mounts then
    .ok ⟨((st.mounts.reverse).erase path).reverse, st.dirs⟩
  else .error (.notMounted path)

/-- std::fs::remove_dir_all: remove the tree, an error when it is absent. -/
def removeDirAll (st : FsState) (path : String) : Except FsError FsState :=
  if path ∈ st.dirs then .ok ⟨st.mounts, st.dirs.erase path⟩
  else .error (.notFound path)

/-- The targets remove_sandbox collects from /proc/self/mounts (package.rs
lines 113-124): every mount target starting with /tmp/worker/overlay, in
mount order. -/
def overlayTargets (mounts : List String) : List String :=
  mounts.filter (fun t => strStartsWith t overlayRoot)

/-- The unmount loop of remove_sandbox (line 125-127): the collected targets
in reverse order, stopping at the first failure. -/
def umountAll : FsState → List String → Except FsError FsState
  | st, [] => .ok st
  | st, t :: ts =>
    match umountSys st t with
    | .ok st1 => umountAll st1 ts
    | .error e => .error e

/-- Package::remove_sandbox (package.rs lines 108-135): unmount every mount
under the overlay in reverse mount order, then remove the user-area, work
and overlay directories; each ? operator propagates the first failure. -/
def remove_sandbox (st : FsState) : Except FsError FsState :=
  match umountAll st (overlayTargets st.mounts).reverse with
  | .error e => .error e
  | .ok st1 =>
    match removeDirAll st1 "/tmp/worker/user-area" with
    | .error e => .error e
    | .ok st2 =>
      match removeDirAll st2 "/tmp/worker/work" with
      | .error e => .error e
      | .ok st3 => removeDirAll st3 "/tmp/worker/overlay"

/- ------------------------------------------------------------------
   The parent branch of run_in_sandbox (package.rs lines 249-290)
   ------------------------------------------------------------------ -/

/-- The syscall outcomes the parent branch of run_in_sandbox can observe, one
field per fallible step in code order. -/
structure ParentEnv where
  forkFails : Bool
  wait1Fails : Bool
  /-- WIFSTOPPED of the first waitpid (WUNTRACED) status. -/
  wait1Stopped : Bool
  uidMapWriteFails : Bool
  setgroupsWriteFails : Bool
  gidMapWriteFails : Bool
  /-- kill(child, SIGCONT) returning nonzero. -/
  killFails : Bool
  wait2Fails : Bool
  /-- How the child terminated at the second waitpid. -/
  wait2Status : Mp.ExitKind
deriving DecidableEq, Repr

inductive SandboxError where
  | forkFailed
  | waitpidFailed
  | childNotStopped
  | uidMapWriteFailed
  | setgroupsWriteFailed
  | gidMapWriteFailed
  | sigcontFailed
  /-- bail!("Process returned exit code ...") on a non-WIFEXITED status. -/
  | childDidNotExit (status : Mp.ExitKind)
deriving DecidableEq, Repr

/-- run_in_sandbox's parent branch (package.rs lines 249-290): each fallible
step in code order; Ok(()) exactly when every step succeeds and the second
waitpid reports WIFEXITED, whatever the exit code is. -/
def runInSandboxParent (e : ParentEnv) : Except SandboxError Unit :=
  if e.forkFails then .error .forkFailed
  else if e.wait1Fails then .error .waitpidFailed
  else if !e.wait1Stopped then .error .childNotStopped
  else if e.uidMapWriteFails then .error .uidMapWriteFailed
  else if e.setgroupsWriteFails then .error .setgroupsWriteFailed
  else if e.gidMapWriteFails then .error .gidMapWriteFailed
  else if e.killFails then .error .sigcontFailed
  else if e.wait2Fails then .error .waitpidFailed
  else
    match e.wait2Status with
    | .exited _ => .ok ()
    | s => .error (.childDidNotExit s)

/-- Exit code of the sandbox child (package.rs lines 245-247): 0 when the
catch_unwind scope completed, 1 when the closure or a setup step panicked. -/
def childExitCode (panicked : Bool) : Nat := if panicked then 1 else 0

end Sandbox

/- ===================================================================
   src/cgroups.rs: create_root_cpuset
   =================================================================== -/

namespace Cgroups

/-- std::io::ErrorKind, restricted to what the code inspects. -/
inductive IoKind where
  | alreadyExists
  | otherKind
deriving DecidableEq, Repr

/-- The create_dir(...).or_else(...) of create_root_cpuset (cgroups.rs lines
6-13): an AlreadyExists error is turned into success, any other outcome is
kept. -/
def createDirIdempotent (res : Except IoKind Unit) : Except IoKind Unit :=
  match res with
  | .ok () => .ok ()
  | .error e => if e = IoKind.alreadyExists then .ok () else .error e

/-- One /proc directory entry paired with the content of its cpuset file. -/
structure ProcEntry where
  name : String
  cpuset : String
deriving DecidableEq, Repr

/-- The scan loop of create_root_cpuset (cgroups.rs lines 17-34): keep, in
scan order, every entry whose name parses as a pid_t (i32) and whose cpuset
file reads "/" followed by a newline. -/
def collectPids : List ProcEntry → List Int
  | [] => []
  | e :: es =>
    match Mp.parseI32 e.name with
    | some pid => if e.cpuset = "/\n" then pid :: collectPids es else collectPids es
    | none => collectPids es

/-- The string-building loop (cgroups.rs lines 36-40): append each pid and a
newline to the accumulator. -/
def tasksStringFrom (acc : String) : List Int → String
  | [] => acc
  | pid :: rest => tasksStringFrom (acc ++ toString pid ++ "\n") rest

/-- The content create_root_cpuset writes to sunwalker_root/tasks (cgroups.rs
line 42), given the scanned /proc entries. -/
def tasksWritten (entries : List ProcEntry) : String :=
  tasksStringFrom "" (collectPids entries)

end Cgroups

/- ===================================================================
   src/problem/problem.rs: the instantiated dependency graph
   =================================================================== -/

namespace Graph

/-- DependencyGraph.dependents_of, a finite map u64 → Vec<u64> given as an
association list; test ids carry no arithmetic, so Nat stands for u64. -/
abbrev DepGraph : Type := List (Nat × List Nat)

/-- dependents_of.get(&test).unwrap_or(&Vec::new()). -/
def lookupDeps (g : DepGraph) (test : Nat) : List Nat :=
  ((g.find? (fun p => p.1 == test)).map (fun p => p.2)).getD []

/-- The recursion of _fail_test (problem.rs lines 52-63): skip an already
disabled test, otherwise insert it and recurse into its dependents. The Rust
recursion is unbounded but terminates because disabled_tests grows; here the
same computation runs on a fuel that the theorems prove sufficient, so the
fuel-0 branch is never taken from failTest. -/
def failTestFuel (g : DepGraph) : Nat → List Nat → Nat → List Nat
  | 0, disabled, _ => disabled
  | fuel + 1, disabled, test =>
    if test ∈ disabled then disabled
    else (lookupDeps g test).foldl (fun acc dep => failTestFuel g fuel acc dep) (test :: disabled)

/-- Every test id appearing in some dependents list of the graph. -/
def allDeps (g : DepGraph) : List Nat :=
  (g.map (fun p => p.2)).flatten

/-- Fuel sufficient for _fail_test from any disabled set: one more than the
number of distinct tests the recursion can ever insert below the root. -/
def failFuel (g : DepGraph) (test : Nat) : Nat :=
  (insert test (allDeps g).toFinset).card + 1

/-- InstantiatedDependencyGraph::fail_test (problem.rs lines 65-67) acting on
the disabled set. -/
def fail_test (g : DepGraph) (disabled : List Nat) (test : Nat) : List Nat :=
  failTestFuel g (failFuel g test) disabled test

/-- InstantiatedDependencyGraph::is_test_enabled (problem.rs lines 69-71). -/
def is_test_enabled (disabled : List Nat) (test : Nat) : Bool :=
  !(disabled.contains test)

/-- A sequence of fail_test calls starting from the freshly instantiated
graph (DependencyGraph::instantiate gives an empty disabled set). -/
def runFails (g : DepGraph) (ts : List Nat) : List Nat :=
  ts.foldl (fun disabled t => fail_test g disabled t) []

/-- Reachability along dependents_of edges, every test reaching itself. -/
inductive Reaches (g : DepGraph) : Nat → Nat → Prop
  | refl (u : Nat) : Reaches g u u
  | step {u v w : Nat} : Reaches g u v → w ∈ lookupDeps g v → Reaches g u w

end Graph

/- ===================================================================
   Theorems
   =================================================================== -/

/-- C1 (code bug): multiprocessing::tokio::spawn launches /proc/self/exe with
the sentinel in argv[0] but only ONE fd number in argv[1..] (the duplex fd),
while the sentinel branch of multiprocessing::imp::main demands three decimal
fd arguments and panics on fewer: the child of every cooperative spawn dies
in its expect("Expected three CLI arguments for multiprocessing"). With three
arguments the branch does parse them and re-enables CLOEXEC on each before
receiving the closure, as the claim describes. -/
theorem c1_tokio_spawn_argv_mismatch :
    Sunwalker.Mp.tokioSpawnArgv 5 = [Sunwalker.Mp.sentinel, "5"]
    ∧ (Sunwalker.Mp.tokioSpawnArgv 5).length = 2
    ∧ Sunwalker.Mp.impMain (Sunwalker.Mp.tokioSpawnArgv 5) = .panicked
    ∧ Sunwalker.Mp.impMain [Sunwalker.Mp.sentinel, "3", "4", "5"]
        = .runEntry 3 4 5 [3, 4, 5]
    ∧ Sunwalker.Mp.impMain ["sunwalker_invoker"] = .runMain := by
  refine ⟨rfl, rfl, ?_, ?_, rfl⟩ <;> decide

/-- C2: Child::join first resolves the receive (a receive error returns at
once, before waiting), then the wait; given both succeeded it returns the
value iff the exit status is success (code 0) and a value arrived, the
process-failed error whenever the status is not success regardless of the
received value, and the no-value error when the status is success but no
value arrived. -/
theorem c2_join_spec :
    ∀ (α : Type) (v? : Option α) (st : Sunwalker.Mp.ExitKind) (e : Sunwalker.Mp.IOErr)
      (w : Except Sunwalker.Mp.IOErr Sunwalker.Mp.ExitKind),
      (∀ x : α, Sunwalker.Mp.join (.ok v?) (.ok st) = .ok x ↔
        (st.success = true ∧ v? = some x))
    ∧ (st.success = false →
        Sunwalker.Mp.join (.ok v?) (.ok st) = .error ⟨Sunwalker.Mp.processFailedMsg⟩)
    ∧ (st.success = true → v? = none →
        Sunwalker.Mp.join (.ok v?) (.ok st) = .error ⟨Sunwalker.Mp.noValueMsg⟩)
    ∧ Sunwalker.Mp.join (.error e : Except Sunwalker.Mp.IOErr (Option α)) w = .error e := by
  intro α v? st e w
  refine ⟨?_, ?_, ?_, rfl⟩
  · intro x
    cases hs : st.success <;> cases v? <;>
      simp [Sunwalker.Mp.join, hs, Sunwalker.Mp.noValueMsg, Sunwalker.Mp.processFailedMsg]
  · intro hs
    cases v? <;> simp [Sunwalker.Mp.join, hs]
  · intro hs hv
    subst hv
    simp [Sunwalker.Mp.join, hs]

/-- C3 (code bug): the send loop caps every fd chunk at 253 descriptors, yet
attaching a chunk fails as soon as it exceeds 58 descriptors, because the
ancillary buffer `[0; 253]` is 253 BYTES and SocketAncillary::add_fds needs
CMSG_SPACE(4 * n) = align8(4 n) + 16 of them: sending 59 fds (far below 253,
and below the 253-per-packet cap) already fails with "Too many fds to pass",
while 58 fds still pass. -/
theorem c3_fd_chunk_59_fails :
    Sunwalker.Ipc.send [] (List.range 59) = some (.error .tooManyFds)
    ∧ Sunwalker.Ipc.send [] (List.range 58) = some (.ok [⟨1, [], List.range 58⟩])
    ∧ Sunwalker.Ipc.addFdsOk Sunwalker.Ipc.ancillaryBufLen 59 = false
    ∧ Sunwalker.Ipc.addFdsOk Sunwalker.Ipc.ancillaryBufLen 58 = true
    ∧ (List.range 59).length ≤ 253 := by
  refine ⟨?_, ?_, ?_, ?_, ?_⟩ <;> decide

/-- Splitting the remainder at the packet boundary recovers the remainder:
m is the buffer_end the send loop computes from position p. -/
lemma take_min_drop_append (s : List Nat) (p : Nat) :
    (s.drop p).take (min s.length (p + (Sunwalker.Ipc.MAX_PACKET_SIZE - 1)) - p) ++
      s.drop (min s.length (p + (Sunwalker.Ipc.MAX_PACKET_SIZE - 1))) = s.drop p := by
  by_cases hp : p ≤ min s.length (p + (Sunwalker.Ipc.MAX_PACKET_SIZE - 1))
  · have hdd : s.drop (min s.length (p + (Sunwalker.Ipc.MAX_PACKET_SIZE - 1))) =
        (s.drop p).drop (min s.length (p + (Sunwalker.Ipc.MAX_PACKET_SIZE - 1)) - p) := by
      rw [List.drop_drop]
      congr 1
      omega
    rw [hdd, List.take_append_drop]
  · have h1 : s.length ≤ p := by omega
    have h2 : s.length ≤ min s.length (p + (Sunwalker.Ipc.MAX_PACKET_SIZE - 1)) := by omega
    rw [List.drop_eq_nil_of_le h1, List.drop_eq_nil_of_le h2]
    simp

/-- Shape of a successful run of the send loop from any pair of cursors: the
markers are a block of zeros closed by a single one, the payloads concatenate
to the unsent part of the buffer, and every packet respects the payload and
fd bounds. -/
lemma sendLoop_ok_spec :
    ∀ (fuel : Nat) (s f : List Nat) (p q : Nat) (ps : List Sunwalker.Ipc.Packet),
      Sunwalker.Ipc.sendLoop s f fuel p q = some (.ok ps) →
        ps.map Sunwalker.Ipc.Packet.marker = List.replicate (ps.length - 1) 0 ++ [1]
      ∧ (ps.map Sunwalker.Ipc.Packet.payload).flatten = s.drop p
      ∧ (∀ pkt ∈ ps, pkt.payload.length ≤ Sunwalker.Ipc.MAX_PACKET_SIZE - 1
          ∧ pkt.fds.length ≤ 253) := by
  intro fuel
  induction fuel with
  | zero => intro s f p q ps h; exact Option.noConfusion h
  | succ fuel ih =>
    intro s f p q ps h
    rw [Sunwalker.Ipc.sendLoop] at h
    by_cases hadd : Sunwalker.Ipc.addFdsOk Sunwalker.Ipc.ancillaryBufLen
        ((f.drop q).take (min f.length (q + 253) - q)).length
    · rw [if_pos hadd] at h
      by_cases hlast :
          (min s.length (p + (Sunwalker.Ipc.MAX_PACKET_SIZE - 1)) == s.length
            && (min f.length (q + 253) == f.length)) = true
      · simp only [if_pos hlast] at h
        have hps : ps = [⟨1, (s.drop p).take (min s.length (p + (Sunwalker.Ipc.MAX_PACKET_SIZE - 1)) - p),
            (f.drop q).take (min f.length (q + 253) - q)⟩] :=
          (Except.ok.inj (Option.some.inj h)).symm
        subst hps
        refine ⟨rfl, ?_, ?_⟩
        · have hb : min s.length (p + (Sunwalker.Ipc.MAX_PACKET_SIZE - 1)) = s.length := by
            have := (Bool.and_eq_true _ _).mp hlast
            exact eq_of_beq this.1
          simp only [List.map_cons, List.map_nil, List.flatten]
          rw [hb]
          have : s.length - p = (s.drop p).length := (List.length_drop ..).symm
          rw [this, List.take_of_length_le (le_refl _)]
          simp
        · intro pkt hpkt
          rcases List.mem_singleton.mp hpkt with rfl
          constructor
          · have := List.length_take (min s.length (p + (Sunwalker.Ipc.MAX_PACKET_SIZE - 1)) - p) (s.drop p)
            simp only [this]
            omega
          · have := List.length_take (min f.length (q + 253) - q) (f.drop q)
            simp only [this]
            omega
      · simp only [if_neg hlast] at h
        cases hrec : Sunwalker.Ipc.sendLoop s f fuel
            (min s.length (p + (Sunwalker.Ipc.MAX_PACKET_SIZE - 1))) (min f.length (q + 253)) with
        | none => rw [hrec] at h; simp at h
        | some r =>
          cases r with
          | error e => rw [hrec] at h; simp at h
          | ok rest =>
            rw [hrec] at h
            have hps : ps = ⟨0, (s.drop p).take (min s.length (p + (Sunwalker.Ipc.MAX_PACKET_SIZE - 1)) - p),
                (f.drop q).take (min f.length (q + 253) - q)⟩ :: rest :=
              (Except.ok.inj (Option.some.inj h)).symm
            subst hps
            obtain ⟨hm, hjoin, hbound⟩ := ih s f _ _ rest hrec
            have hrest_ne : rest.length ≥ 1 := by
              by_contra hcon
              have : rest = [] := by
                cases rest with
                | nil => rfl
                | cons a b => exact absurd (by simp) hcon
              subst this
              simp at hm
            refine ⟨?_, ?_, ?_⟩
            · simp only [List.map_cons, List.length_cons, hm]
              have : List.replicate ((rest.length + 1) - 1) 0 = 0 :: List.replicate (rest.length - 1) 0 := by
                have h2 : rest.length - 1 + 1 = rest.length := by omega
                calc List.replicate ((rest.length + 1) - 1) 0
                    = List.replicate (rest.length - 1 + 1) 0 := by rw [h2]; simp
                  _ = 0 :: List.replicate (rest.length - 1) 0 := List.replicate_succ ..
              rw [this]
              simp
            · simp only [List.map_cons, List.flatten_cons, hjoin]
              exact take_min_drop_append s p
            · intro pkt hpkt
              rcases List.mem_cons.mp hpkt with rfl | hpkt
              · constructor
                · have := List.length_take (min s.length (p + (Sunwalker.Ipc.MAX_PACKET_SIZE - 1)) - p) (s.drop p)
                  simp only [this]
                  omega
                · have := List.length_take (min f.length (q + 253) - q) (f.drop q)
                  simp only [this]
                  omega
              · exact hbound pkt hpkt
    · rw [if_neg hadd] at h
      exact Except.noConfusion (Option.some.inj h)

/-- C4: whenever a send succeeds, it emits its serialized buffer as packets
of at most MAX_PACKET_SIZE - 1 = 16383 payload bytes each after the marker
byte, the marker is 0 on every packet but the last and 1 on the last, the
payloads concatenate back to the serialized buffer, and exactly one
terminator marker is emitted per send. -/
theorem c4_send_packet_framing :
    ∀ (serialized fds : List Nat) (ps : List Sunwalker.Ipc.Packet),
      Sunwalker.Ipc.send serialized fds = some (.ok ps) →
        ps.map Sunwalker.Ipc.Packet.marker = List.replicate (ps.length - 1) 0 ++ [1]
      ∧ (ps.map Sunwalker.Ipc.Packet.payload).flatten = serialized
      ∧ (∀ pkt ∈ ps, pkt.payload.length ≤ Sunwalker.Ipc.MAX_PACKET_SIZE - 1
          ∧ pkt.fds.length ≤ 253)
      ∧ (ps.map Sunwalker.Ipc.Packet.marker).count 1 = 1
      ∧ Sunwalker.Ipc.MAX_PACKET_SIZE - 1 = 16383 := by
  intro serialized fds ps h
  obtain ⟨hm, hjoin, hbound⟩ := sendLoop_ok_spec _ serialized fds 0 0 ps h
  refine ⟨hm, by simpa using hjoin, hbound, ?_, rfl⟩
  rw [hm, List.count_append, List.count_replicate]
  simp

/-- C4 witness: a three-byte message with no fds goes out as one packet with
marker 1 whose payload is the buffer itself. -/
theorem c4_send_packet_framing_witness :
    ([(⟨1, [1, 2, 3], []⟩ : Sunwalker.Ipc.Packet)].map Sunwalker.Ipc.Packet.marker
        = List.replicate 0 0 ++ [1])
    ∧ ([(⟨1, [1, 2, 3], []⟩ : Sunwalker.Ipc.Packet)].map Sunwalker.Ipc.Packet.payload).flatten
        = [1, 2, 3]
    ∧ (∀ pkt ∈ [(⟨1, [1, 2, 3], []⟩ : Sunwalker.Ipc.Packet)],
        pkt.payload.length ≤ Sunwalker.Ipc.MAX_PACKET_SIZE - 1 ∧ pkt.fds.length ≤ 253)
    ∧ ([(⟨1, [1, 2, 3], []⟩ : Sunwalker.Ipc.Packet)].map Sunwalker.Ipc.Packet.marker).count 1 = 1
    ∧ Sunwalker.Ipc.MAX_PACKET_SIZE - 1 = 16383 :=
  c4_send_packet_framing [1, 2, 3] [] [⟨1, [1, 2, 3], []⟩] (by decide)

/-- pushRights fails exactly on a control message that is not SCM_RIGHTS. -/
lemma pushRights_none_iff :
    ∀ (cs : List Sunwalker.Ipc.Cmsg) (fds : List Nat),
      Sunwalker.Ipc.pushRights cs fds = none ↔ Sunwalker.Ipc.Cmsg.otherKind ∈ cs := by
  intro cs
  induction cs with
  | nil => intro fds; simp [Sunwalker.Ipc.pushRights]
  | cons c rest ih =>
    intro fds
    cases c with
    | scmRights r => simp [Sunwalker.Ipc.pushRights, ih]
    | otherKind => simp [Sunwalker.Ipc.pushRights]

/-- C5: the receive loop accumulates payload bytes and SCM_RIGHTS fds of each
continuation packet and recurses until a packet whose marker byte is 1, which
it returns with everything accumulated; a read with zero bytes and zero
ancillary yields None when nothing is buffered yet for this message and the
unterminated-stream error otherwise; and any control message that is not
SCM_RIGHTS fails the receive. -/
theorem c5_recv_loop :
    ∀ (d : Sunwalker.Ipc.Datagram) (rest : List Sunwalker.Ipc.Datagram) (buf fds : List Nat),
      (∀ (marker : Nat) (payload fds1 : List Nat),
        d.bytes = marker :: payload → marker ≠ 1 →
        Sunwalker.Ipc.pushRights d.cmsgs fds = some fds1 →
        Sunwalker.Ipc.recvLoop (d :: rest) buf fds =
          Sunwalker.Ipc.recvLoop rest (buf ++ payload) fds1)
    ∧ (∀ (payload fds1 : List Nat),
        d.bytes = 1 :: payload →
        Sunwalker.Ipc.pushRights d.cmsgs fds = some fds1 →
        Sunwalker.Ipc.recvLoop (d :: rest) buf fds = .value (buf ++ payload) fds1)
    ∧ (Sunwalker.Ipc.recvLoop (⟨[], []⟩ :: rest) buf fds =
        if buf = [] ∧ fds = [] then .closed else .failed .unterminated)
    ∧ (Sunwalker.Ipc.Cmsg.otherKind ∈ d.cmsgs →
        Sunwalker.Ipc.recvLoop (d :: rest) buf fds = .failed .unexpectedCmsg) := by
  intro d rest buf fds
  refine ⟨?_, ?_, ?_, ?_⟩
  · intro marker payload fds1 hb hm hp
    simp [Sunwalker.Ipc.recvLoop, hp, hb, hm]
  · intro payload fds1 hb hp
    simp [Sunwalker.Ipc.recvLoop, hp, hb]
  · by_cases hb : buf = [] <;> by_cases hf : fds = [] <;>
      simp [Sunwalker.Ipc.recvLoop, Sunwalker.Ipc.pushRights, hb, hf]
  · intro hmem
    have hnone : Sunwalker.Ipc.pushRights d.cmsgs fds = none :=
      (pushRights_none_iff d.cmsgs fds).mpr hmem
    simp [Sunwalker.Ipc.recvLoop, hnone]

/-- When every env line parses, the per-line tail of the child trace ends in
the user-closure invocation. -/
lemma envTailOps_invoke_sublist :
    ∀ (ls : List String), (∀ l ∈ ls, (Sunwalker.Sandbox.parseEnvLine l).isSome) →
      List.Sublist [Sunwalker.Sandbox.ChildOp.invokeUserClosure]
        (Sunwalker.Sandbox.envTailOps ls) := by
  intro ls
  induction ls with
  | nil => intro _; simp [Sunwalker.Sandbox.envTailOps]
  | cons l ls ih =>
    intro h
    have hl : (Sunwalker.Sandbox.parseEnvLine l).isSome := h l (by simp)
    obtain ⟨p, hp⟩ := Option.isSome_iff_exists.mp hl
    have := ih (fun x hx => h x (by simp [hx]))
    simp only [Sunwalker.Sandbox.envTailOps, hp]
    exact List.Sublist.cons _ this

/-- C6: the forked sandbox child performs the unshare of the seven
namespaces, raise(SIGSTOP), setuid(0) then setgid(0), the recursive self
bind-mount of /tmp/worker/overlay, chdir there, pivot_root(".", "."),
umount(".", MNT_DETACH) and chdir("/"), in exactly this order as the first
nine actions of its trace, and all of them precede the read of the package
env file, which precedes the invocation of the user closure. -/
theorem c6_child_pivot_order :
    ∀ (envLines : List String),
      (Sunwalker.Sandbox.childTrace envLines).take 9 = Sunwalker.Sandbox.claimedPivotOps
    ∧ ((∀ l ∈ envLines, (Sunwalker.Sandbox.parseEnvLine l).isSome) →
        List.Sublist
          (Sunwalker.Sandbox.claimedPivotOps ++
            [Sunwalker.Sandbox.ChildOp.openEnvFile "/.sunwalker/env",
             Sunwalker.Sandbox.ChildOp.invokeUserClosure])
          (Sunwalker.Sandbox.childTrace envLines)) := by
  intro envLines
  constructor
  · rfl
  · intro h
    have htail := envTailOps_invoke_sublist envLines h
    have h1 : List.Sublist
        [Sunwalker.Sandbox.ChildOp.openEnvFile "/.sunwalker/env",
         Sunwalker.Sandbox.ChildOp.invokeUserClosure]
        ([Sunwalker.Sandbox.ChildOp.openEnvFile "/.sunwalker/env"] ++
          Sunwalker.Sandbox.envTailOps envLines) :=
      List.Sublist.cons₂ _ htail
    have h2 := h1.trans
      (List.sublist_append_right Sunwalker.Sandbox.defaultEnvOps
        ([Sunwalker.Sandbox.ChildOp.openEnvFile "/.sunwalker/env"] ++
          Sunwalker.Sandbox.envTailOps envLines))
    exact h2.append_left Sunwalker.Sandbox.claimedPivotOps

/-- Unmounting targets none of which is the bottom mount leaves the bottom
mount in place and acts on the rest of the table. -/
lemma umountAll_keeps_bottom :
    ∀ (ts : List String) (n : List String) (d : List String) (x : String),
      (∀ t ∈ ts, t ≠ x) →
      Sunwalker.Sandbox.umountAll ⟨n ++ [x], d⟩ ts =
        match Sunwalker.Sandbox.umountAll ⟨n, d⟩ ts with
        | .ok st => .ok ⟨st.mounts ++ [x], st.dirs⟩
        | .error e => .error e := by
  intro ts
  induction ts with
  | nil => intro n d x _; rfl
  | cons t ts ih =>
    intro n d x hne
    have htx : t ≠ x := hne t (by simp)
    by_cases hmem : t ∈ n
    · have hmem1 : t ∈ n ++ [x] := List.mem_append_left _ hmem
      have hrev : ((n ++ [x]).reverse.erase t).reverse =
          (n.reverse.erase t).reverse ++ [x] := by
        rw [List.reverse_append]
        simp only [List.reverse_singleton, List.singleton_append]
        rw [List.erase_cons_tail (by simp [htx.symm])]
        simp
      simp only [Sunwalker.Sandbox.umountAll, Sunwalker.Sandbox.umountSys,
        if_pos hmem, if_pos hmem1, hrev]
      exact ih (n.reverse.erase t).reverse d x (fun s hs => hne s (by simp [hs]))
    · have hmem1 : t ∉ n ++ [x] := by
        intro hc
        rcases List.mem_append.mp hc with hc | hc
        · exact hmem hc
        · exact htx (List.mem_singleton.mp hc)
      simp only [Sunwalker.Sandbox.umountAll, Sunwalker.Sandbox.umountSys,
        if_neg hmem, if_neg hmem1]

/-- The unmount loop, fed with the matching mounts of the table bottom-up,
removes exactly the matching mounts: stated over the reversed table. -/
lemma umountAll_reverse_filter :
    ∀ (r : List String) (d : List String),
      Sunwalker.Sandbox.umountAll ⟨r.reverse, d⟩
          (r.filter (fun t => Sunwalker.Sandbox.strStartsWith t Sunwalker.Sandbox.overlayRoot)) =
        .ok ⟨(r.filter (fun t => !(Sunwalker.Sandbox.strStartsWith t Sunwalker.Sandbox.overlayRoot))).reverse, d⟩ := by
  intro r
  induction r with
  | nil => intro d; rfl
  | cons x xs ih =>
    intro d
    cases hpx : Sunwalker.Sandbox.strStartsWith x Sunwalker.Sandbox.overlayRoot with
    | true =>
      have hfi : (x :: xs).filter (fun t => Sunwalker.Sandbox.strStartsWith t Sunwalker.Sandbox.overlayRoot)
          = x :: xs.filter (fun t => Sunwalker.Sandbox.strStartsWith t Sunwalker.Sandbox.overlayRoot) := by
        simp [List.filter_cons, hpx]
      have hmem : x ∈ (x :: xs).reverse := by simp
      have hrev : ((x :: xs).reverse.reverse.erase x).reverse = xs.reverse := by
        rw [List.reverse_reverse, List.erase_cons_head]
      rw [hfi]
      simp only [Sunwalker.Sandbox.umountAll, Sunwalker.Sandbox.umountSys, if_pos hmem, hrev]
      rw [ih d]
      have : (x :: xs).filter (fun t => !(Sunwalker.Sandbox.strStartsWith t Sunwalker.Sandbox.overlayRoot))
          = xs.filter (fun t => !(Sunwalker.Sandbox.strStartsWith t Sunwalker.Sandbox.overlayRoot)) := by
        simp [List.filter_cons, hpx]
      rw [this]
    | false =>
      have hfi : (x :: xs).filter (fun t => Sunwalker.Sandbox.strStartsWith t Sunwalker.Sandbox.overlayRoot)
          = xs.filter (fun t => Sunwalker.Sandbox.strStartsWith t Sunwalker.Sandbox.overlayRoot) := by
        simp [List.filter_cons, hpx]
      have hno : (x :: xs).filter (fun t => !(Sunwalker.Sandbox.strStartsWith t Sunwalker.Sandbox.overlayRoot))
          = x :: xs.filter (fun t => !(Sunwalker.Sandbox.strStartsWith t Sunwalker.Sandbox.overlayRoot)) := by
        simp [List.filter_cons, hpx]
      have hcons : (x :: xs).reverse = xs.reverse ++ [x] := by simp
      rw [hfi, hcons]
      rw [umountAll_keeps_bottom _ xs.reverse d x (by
        intro t ht
        have := List.of_mem_filter ht
        intro hq
        rw [hq] at this
        rw [hpx] at this
        exact Bool.noConfusion this)]
      rw [ih d]
      rw [hno]
      simp

/-- The unmount phase of remove_sandbox succeeds on any mount table and
leaves exactly the mounts whose target does not start with the overlay root. -/
lemma remove_sandbox_unmount_phase :
    ∀ (m : List String) (d : List String),
      Sunwalker.Sandbox.umountAll ⟨m, d⟩ (Sunwalker.Sandbox.overlayTargets m).reverse =
        .ok ⟨m.filter (fun t => !(Sunwalker.Sandbox.strStartsWith t Sunwalker.Sandbox.overlayRoot)), d⟩ := by
  intro m d
  have h1 : (Sunwalker.Sandbox.overlayTargets m).reverse =
      m.reverse.filter (fun t => Sunwalker.Sandbox.strStartsWith t Sunwalker.Sandbox.overlayRoot) := by
    rw [Sunwalker.Sandbox.overlayTargets, List.filter_reverse]
  have h2 := umountAll_reverse_filter m.reverse d
  rw [List.reverse_reverse] at h2
  rw [h1, h2, List.filter_reverse, List.reverse_reverse]

/-- After the matching mounts are removed, no target under the overlay root
remains. -/
lemma overlayTargets_after_filter :
    ∀ (m : List String),
      Sunwalker.Sandbox.overlayTargets
        (m.filter (fun t => !(Sunwalker.Sandbox.strStartsWith t Sunwalker.Sandbox.overlayRoot))) = [] := by
  intro m
  rw [Sunwalker.Sandbox.overlayTargets]
  induction m with
  | nil => rfl
  | cons x xs ih =>
    cases hpx : Sunwalker.Sandbox.strStartsWith x Sunwalker.Sandbox.overlayRoot <;>
      simp [List.filter_cons, hpx, ih]

/-- C7 counterexample: from a state holding the overlay mount and the three
sandbox directories, the first remove_sandbox run empties both, and the
second run does NOT succeed: it performs no unmount and fails with NotFound
on the already-removed user-area directory. -/
theorem c7_cex_second_run_errors :
    Sunwalker.Sandbox.remove_sandbox
        ⟨["/tmp/worker/overlay"],
         ["/tmp/worker/user-area", "/tmp/worker/work", "/tmp/worker/overlay"]⟩
      = .ok ⟨[], []⟩
    ∧ Sunwalker.Sandbox.remove_sandbox (⟨[], []⟩ : Sunwalker.Sandbox.FsState)
      = .error (.notFound "/tmp/worker/user-area") := by
  constructor <;> decide

/-- C7 (amended): on any state holding the three sandbox directories (each
once), remove_sandbox succeeds, unmounts exactly the mounts under
/tmp/worker/overlay (so none remains) and removes the three directories; a
second run changes nothing further — it finds no overlay mount to unmount —
but rather than succeeding it returns a NotFound error for the already
removed user-area directory. -/
theorem c7_remove_sandbox_teardown :
    ∀ (st : Sunwalker.Sandbox.FsState),
      "/tmp/worker/user-area" ∈ st.dirs →
      "/tmp/worker/work" ∈ st.dirs →
      "/tmp/worker/overlay" ∈ st.dirs →
      st.dirs.Nodup →
      ∃ st1,
        Sunwalker.Sandbox.remove_sandbox st = .ok st1
      ∧ st1.mounts = st.mounts.filter
          (fun t => !(Sunwalker.Sandbox.strStartsWith t Sunwalker.Sandbox.overlayRoot))
      ∧ Sunwalker.Sandbox.overlayTargets st1.mounts = []
      ∧ st1.dirs = ((st.dirs.erase "/tmp/worker/user-area").erase "/tmp/worker/work").erase
          "/tmp/worker/overlay"
      ∧ Sunwalker.Sandbox.remove_sandbox st1 = .error (.notFound "/tmp/worker/user-area") := by
  intro st hua hwk hov hnd
  obtain ⟨m, dirs⟩ := st
  simp only at hua hwk hov hnd
  have hfilter := remove_sandbox_unmount_phase m dirs
  have hwk1 : "/tmp/worker/work" ∈ dirs.erase "/tmp/worker/user-area" :=
    (List.mem_erase_of_ne (by decide)).mpr hwk
  have hov1 : "/tmp/worker/overlay" ∈ (dirs.erase "/tmp/worker/user-area").erase "/tmp/worker/work" :=
    (List.mem_erase_of_ne (by decide)).mpr ((List.mem_erase_of_ne (by decide)).mpr hov)
  refine ⟨⟨m.filter (fun t => !(Sunwalker.Sandbox.strStartsWith t Sunwalker.Sandbox.overlayRoot)),
    ((dirs.erase "/tmp/worker/user-area").erase "/tmp/worker/work").erase "/tmp/worker/overlay"⟩,
    ?_, rfl, overlayTargets_after_filter m, rfl, ?_⟩
  · have h2 : Sunwalker.Sandbox.removeDirAll
        ⟨m.filter (fun t => !(Sunwalker.Sandbox.strStartsWith t Sunwalker.Sandbox.overlayRoot)), dirs⟩
        "/tmp/worker/user-area" =
        .ok ⟨m.filter (fun t => !(Sunwalker.Sandbox.strStartsWith t Sunwalker.Sandbox.overlayRoot)),
          dirs.erase "/tmp/worker/user-area"⟩ := by
      simp [Sunwalker.Sandbox.removeDirAll, hua]
    have h3 : Sunwalker.Sandbox.removeDirAll
        ⟨m.filter (fun t => !(Sunwalker.Sandbox.strStartsWith t Sunwalker.Sandbox.overlayRoot)),
          dirs.erase "/tmp/worker/user-area"⟩ "/tmp/worker/work" =
        .ok ⟨m.filter (fun t => !(Sunwalker.Sandbox.strStartsWith t Sunwalker.Sandbox.overlayRoot)),
          (dirs.erase "/tmp/worker/user-area").erase "/tmp/worker/work"⟩ := by
      simp [Sunwalker.Sandbox.removeDirAll, hwk1]
    have h4 : Sunwalker.Sandbox.removeDirAll
        ⟨m.filter (fun t => !(Sunwalker.Sandbox.strStartsWith t Sunwalker.Sandbox.overlayRoot)),
          (dirs.erase "/tmp/worker/user-area").erase "/tmp/worker/work"⟩ "/tmp/worker/overlay" =
        .ok ⟨m.filter (fun t => !(Sunwalker.Sandbox.strStartsWith t Sunwalker.Sandbox.overlayRoot)),
          ((dirs.erase "/tmp/worker/user-area").erase "/tmp/worker/work").erase
            "/tmp/worker/overlay"⟩ := by
      simp [Sunwalker.Sandbox.removeDirAll, hov1]
    rw [Sunwalker.Sandbox.remove_sandbox]
    simp only [hfilter, h2, h3, h4]
  · have hua_out : "/tmp/worker/user-area" ∉
        ((dirs.erase "/tmp/worker/user-area").erase "/tmp/worker/work").erase
          "/tmp/worker/overlay" := by
      intro hc
      have h1 := (List.Nodup.mem_erase_iff ((hnd.erase _).erase _)).mp hc
      have h2 := (List.Nodup.mem_erase_iff (hnd.erase _)).mp h1.2
      have h3 := (List.Nodup.mem_erase_iff hnd).mp h2.2
      exact h3.1 rfl
    have hum : Sunwalker.Sandbox.umountAll
        ⟨m.filter (fun t => !(Sunwalker.Sandbox.strStartsWith t Sunwalker.Sandbox.overlayRoot)),
          ((dirs.erase "/tmp/worker/user-area").erase "/tmp/worker/work").erase
            "/tmp/worker/overlay"⟩
        (Sunwalker.Sandbox.overlayTargets
          (m.filter (fun t => !(Sunwalker.Sandbox.strStartsWith t Sunwalker.Sandbox.overlayRoot)))).reverse =
        .ok ⟨m.filter (fun t => !(Sunwalker.Sandbox.strStartsWith t Sunwalker.Sandbox.overlayRoot)),
          ((dirs.erase "/tmp/worker/user-area").erase "/tmp/worker/work").erase
            "/tmp/worker/overlay"⟩ := by
      rw [overlayTargets_after_filter m]
      rfl
    have hfail : Sunwalker.Sandbox.removeDirAll
        ⟨m.filter (fun t => !(Sunwalker.Sandbox.strStartsWith t Sunwalker.Sandbox.overlayRoot)),
          ((dirs.erase "/tmp/worker/user-area").erase "/tmp/worker/work").erase
            "/tmp/worker/overlay"⟩ "/tmp/worker/user-area" =
        .error (.notFound "/tmp/worker/user-area") := by
      simp [Sunwalker.Sandbox.removeDirAll, hua_out]
    rw [Sunwalker.Sandbox.remove_sandbox]
    simp only [hum, hfail]

/-- C7 witness: the teardown theorem applied to a concrete state with four
mounts, two of them under the overlay, and the three sandbox directories. -/
theorem c7_remove_sandbox_teardown_witness :
    ∃ st1,
      Sunwalker.Sandbox.remove_sandbox
        ⟨["/", "/proc", "/tmp/worker/overlay", "/tmp/worker/overlay/dev"],
         ["/tmp/worker/user-area", "/tmp/worker/work", "/tmp/worker/overlay"]⟩ = .ok st1
    ∧ st1.mounts =
        (⟨["/", "/proc", "/tmp/worker/overlay", "/tmp/worker/overlay/dev"],
          ["/tmp/worker/user-area", "/tmp/worker/work", "/tmp/worker/overlay"]⟩ :
            Sunwalker.Sandbox.FsState).mounts.filter
          (fun t => !(Sunwalker.Sandbox.strStartsWith t Sunwalker.Sandbox.overlayRoot))
    ∧ Sunwalker.Sandbox.overlayTargets st1.mounts = []
    ∧ st1.dirs =
        ((((⟨["/", "/proc", "/tmp/worker/overlay", "/tmp/worker/overlay/dev"],
          ["/tmp/worker/user-area", "/tmp/worker/work", "/tmp/worker/overlay"]⟩ :
            Sunwalker.Sandbox.FsState).dirs.erase
              "/tmp/worker/user-area").erase "/tmp/worker/work").erase "/tmp/worker/overlay")
    ∧ Sunwalker.Sandbox.remove_sandbox st1 = .error (.notFound "/tmp/worker/user-area") :=
  c7_remove_sandbox_teardown
    ⟨["/", "/proc", "/tmp/worker/overlay", "/tmp/worker/overlay/dev"],
     ["/tmp/worker/user-area", "/tmp/worker/work", "/tmp/worker/overlay"]⟩
    (by decide) (by decide) (by decide) (by decide)

/-- Membership in the pid list collected by the /proc scan. -/
lemma collectPids_mem :
    ∀ (entries : List Sunwalker.Cgroups.ProcEntry) (pid : Int),
      pid ∈ Sunwalker.Cgroups.collectPids entries ↔
        ∃ en, en ∈ entries ∧ Sunwalker.Mp.parseI32 en.name = some pid ∧ en.cpuset = "/\n" := by
  intro entries pid
  induction entries with
  | nil => simp [Sunwalker.Cgroups.collectPids]
  | cons e es ih =>
    cases hp : Sunwalker.Mp.parseI32 e.name with
    | none =>
      simp only [Sunwalker.Cgroups.collectPids, hp, ih, List.mem_cons]
      constructor
      · rintro ⟨en, hmem, h1, h2⟩
        exact ⟨en, Or.inr hmem, h1, h2⟩
      · rintro ⟨en, rfl | hmem, h1, h2⟩
        · rw [hp] at h1
          exact Option.noConfusion h1
        · exact ⟨en, hmem, h1, h2⟩
    | some q =>
      by_cases hc : e.cpuset = "/\n"
      · simp only [Sunwalker.Cgroups.collectPids, hp, hc, eq_self_iff_true, ite_true,
          List.mem_cons, ih]
        constructor
        · rintro (rfl | ⟨en, hmem, h1, h2⟩)
          · exact ⟨e, Or.inl rfl, hp, hc⟩
          · exact ⟨en, Or.inr hmem, h1, h2⟩
        · rintro ⟨en, rfl | hmem, h1, h2⟩
          · rw [hp] at h1
            exact Or.inl (Option.some.inj h1).symm
          · exact Or.inr ⟨en, hmem, h1, h2⟩
      · simp only [Sunwalker.Cgroups.collectPids, hp, if_neg hc, ih, List.mem_cons]
        constructor
        · rintro ⟨en, hmem, h1, h2⟩
          exact ⟨en, Or.inr hmem, h1, h2⟩
        · rintro ⟨en, rfl | hmem, h1, h2⟩
          · exact absurd h2 hc
          · exact ⟨en, hmem, h1, h2⟩

/-- The string-building loop is the left fold of the appended lines. -/
lemma tasksStringFrom_eq :
    ∀ (pids : List Int) (acc : String),
      Sunwalker.Cgroups.tasksStringFrom acc pids =
        List.foldl (fun a s => a ++ s) acc (pids.map (fun p => toString p ++ "\n")) := by
  intro pids
  induction pids with
  | nil => intro acc; rfl
  | cons p rest ih =>
    intro acc
    simp only [Sunwalker.Cgroups.tasksStringFrom, List.map_cons, List.foldl_cons, ih,
      String.append_assoc]

/-- C8: create_root_cpuset's directory creation succeeds both afresh and when
the directory already exists (and passes any other outcome through), and the
pid list written to sunwalker_root/tasks, each pid followed by a newline,
holds exactly the scanned /proc tasks whose cpuset file reads "/": a pid is
moved iff some scanned entry parses to it as a pid_t and has cpuset "/",
so tasks in any other cpuset contribute nothing. -/
theorem c8_create_root_cpuset :
    ∀ (entries : List Sunwalker.Cgroups.ProcEntry) (res : Except Sunwalker.Cgroups.IoKind Unit)
      (pid : Int),
      Sunwalker.Cgroups.createDirIdempotent (.error .alreadyExists) = .ok ()
    ∧ Sunwalker.Cgroups.createDirIdempotent (.ok ()) = .ok ()
    ∧ (res ≠ .error .alreadyExists → Sunwalker.Cgroups.createDirIdempotent res = res)
    ∧ (pid ∈ Sunwalker.Cgroups.collectPids entries ↔
        ∃ en, en ∈ entries ∧ Sunwalker.Mp.parseI32 en.name = some pid ∧ en.cpuset = "/\n")
    ∧ Sunwalker.Cgroups.tasksWritten entries =
        String.join ((Sunwalker.Cgroups.collectPids entries).map (fun p => toString p ++ "\n")) := by
  intro entries res pid
  refine ⟨rfl, rfl, ?_, collectPids_mem entries pid, ?_⟩
  · intro hne
    match res with
    | .ok () => rfl
    | .error e =>
      have : e ≠ Sunwalker.Cgroups.IoKind.alreadyExists := by
        intro h; exact hne (by rw [h])
      simp [Sunwalker.Cgroups.createDirIdempotent, this]
  · exact tasksStringFrom_eq _ ""

/-- C9 counterexample: with every syscall succeeding except kill(child,
SIGCONT), and the child then exiting normally with code 0, run_in_sandbox
returns an error although none of the claim's listed error conditions holds
(fork, both waitpids and the three map-file writes succeed, the child was
stopped by SIGSTOP, and it terminated by a normal exit). -/
theorem c9_cex_sigcont_failure :
    Sunwalker.Sandbox.runInSandboxParent
        ⟨false, false, true, false, false, false, true, false, .exited 0⟩
      = .error .sigcontFailed
    ∧ (Sunwalker.Sandbox.ParentEnv.forkFails
        ⟨false, false, true, false, false, false, true, false, .exited 0⟩ = false
      ∧ Sunwalker.Sandbox.ParentEnv.wait1Fails
        ⟨false, false, true, false, false, false, true, false, .exited 0⟩ = false
      ∧ Sunwalker.Sandbox.ParentEnv.wait1Stopped
        ⟨false, false, true, false, false, false, true, false, .exited 0⟩ = true
      ∧ Sunwalker.Sandbox.ParentEnv.uidMapWriteFails
        ⟨false, false, true, false, false, false, true, false, .exited 0⟩ = false
      ∧ Sunwalker.Sandbox.ParentEnv.setgroupsWriteFails
        ⟨false, false, true, false, false, false, true, false, .exited 0⟩ = false
      ∧ Sunwalker.Sandbox.ParentEnv.gidMapWriteFails
        ⟨false, false, true, false, false, false, true, false, .exited 0⟩ = false
      ∧ Sunwalker.Sandbox.ParentEnv.wait2Fails
        ⟨false, false, true, false, false, false, true, false, .exited 0⟩ = false
      ∧ Sunwalker.Sandbox.ParentEnv.wait2Status
        ⟨false, false, true, false, false, false, true, false, .exited 0⟩ = .exited 0) :=
  ⟨rfl, rfl, rfl, rfl, rfl, rfl, rfl, rfl, rfl⟩

/-- C9 (amended): run_in_sandbox returns Ok(()) exactly when fork, the first
waitpid, the uid_map, setgroups and gid_map writes, the SIGCONT kill and the
second waitpid all succeed, the child was initially stopped, and the child
terminated by a normal exit — whatever the exit code, in particular code 1
from a panicking closure; every other outcome, the failing SIGCONT kill
included, is an error. -/
theorem c9_run_in_sandbox_ok_iff :
    ∀ (e : Sunwalker.Sandbox.ParentEnv) (panicked : Bool),
      (Sunwalker.Sandbox.runInSandboxParent e = .ok () ↔
        (e.forkFails = false ∧ e.wait1Fails = false ∧ e.wait1Stopped = true
          ∧ e.uidMapWriteFails = false ∧ e.setgroupsWriteFails = false
          ∧ e.gidMapWriteFails = false ∧ e.killFails = false ∧ e.wait2Fails = false
          ∧ ∃ code, e.wait2Status = .exited code))
    ∧ Sunwalker.Sandbox.runInSandboxParent
        ⟨false, false, true, false, false, false, false, false,
          .exited (Sunwalker.Sandbox.childExitCode panicked)⟩ = .ok () := by
  intro e panicked
  constructor
  · obtain ⟨f, w1, stp, u, sg, g, k, w2, s⟩ := e
    cases f <;> cases w1 <;> cases stp <;> cases u <;> cases sg <;> cases g <;>
      cases k <;> cases w2 <;> (try cases s) <;>
      simp [Sunwalker.Sandbox.runInSandboxParent]
  · cases panicked <;> rfl

/-- Reachability composes along the dependents edges. -/
lemma reaches_trans :
    ∀ {g : Sunwalker.Graph.DepGraph} {a b c : Nat},
      Sunwalker.Graph.Reaches g a b → Sunwalker.Graph.Reaches g b c →
      Sunwalker.Graph.Reaches g a c := by
  intro g a b c hab hbc
  induction hbc with
  | refl => exact hab
  | step _ hw ih => exact .step ih hw

/-- A left fold by an extensive function is extensive. -/
lemma foldl_keeps_subset :
    ∀ (l : List Nat) (F : List Nat → Nat → List Nat) (acc : List Nat),
      (∀ a d, a ⊆ F a d) → acc ⊆ l.foldl F acc := by
  intro l
  induction l with
  | nil => intro F acc _; exact fun _ h => h
  | cons hd tl ih =>
    intro F acc hF
    exact List.Subset.trans (hF acc hd) (ih F (F acc hd) hF)

/-- The fail_test recursion never removes a test from the disabled set. -/
lemma failTestFuel_mono :
    ∀ (g : Sunwalker.Graph.DepGraph) (fuel : Nat) (D : List Nat) (t : Nat),
      D ⊆ Sunwalker.Graph.failTestFuel g fuel D t := by
  intro g fuel
  induction fuel with
  | zero => intro D t; exact fun _ h => h
  | succ fuel ih =>
    intro D t
    rw [Sunwalker.Graph.failTestFuel]
    by_cases ht : t ∈ D
    · rw [if_pos ht]
      exact fun _ h => h
    · rw [if_neg ht]
      exact List.Subset.trans (List.subset_cons_self t D)
        (foldl_keeps_subset _ _ _ (fun a d => ih a d))

/-- Every dependent reached by the lookup is in the graph's dependent pool. -/
lemma lookupDeps_sub_allDeps :
    ∀ (g : Sunwalker.Graph.DepGraph) (t d : Nat),
      d ∈ Sunwalker.Graph.lookupDeps g t → d ∈ Sunwalker.Graph.allDeps g := by
  intro g t d hd
  rw [Sunwalker.Graph.lookupDeps] at hd
  cases hfind : g.find? (fun p => p.1 == t) with
  | none => rw [hfind] at hd; simp at hd
  | some p =>
    rw [hfind] at hd
    simp at hd
    have hp : p ∈ g := List.mem_of_find?_eq_some hfind
    rw [Sunwalker.Graph.allDeps]
    exact List.mem_flatten.mpr ⟨p.2, List.mem_map_of_mem _ hp, hd⟩

/-- Soundness of the inner fold: everything it adds is reachable from one of
the folded dependents. -/
lemma foldl_fail_sound :
    ∀ (g : Sunwalker.Graph.DepGraph) (fuel : Nat) (l : List Nat) (acc : List Nat) (x : Nat),
      (∀ (acc' : List Nat) (d x' : Nat),
        x' ∈ Sunwalker.Graph.failTestFuel g fuel acc' d →
        x' ∈ acc' ∨ Sunwalker.Graph.Reaches g d x') →
      x ∈ l.foldl (fun a d => Sunwalker.Graph.failTestFuel g fuel a d) acc →
      x ∈ acc ∨ ∃ d ∈ l, Sunwalker.Graph.Reaches g d x := by
  intro g fuel l
  induction l with
  | nil => intro acc x _ hx; exact Or.inl hx
  | cons hd tl ih =>
    intro acc x hsound hx
    rcases ih _ x hsound hx with hx1 | ⟨d, hdmem, hr⟩
    · rcases hsound acc hd x hx1 with hx2 | hr
      · exact Or.inl hx2
      · exact Or.inr ⟨hd, by simp, hr⟩
    · exact Or.inr ⟨d, by simp [hdmem], hr⟩

/-- Soundness of fail_test at any fuel: a test ends up disabled only if it
was disabled before or is reachable from the failed test. -/
lemma failTestFuel_sound :
    ∀ (g : Sunwalker.Graph.DepGraph) (fuel : Nat) (D : List Nat) (t x : Nat),
      x ∈ Sunwalker.Graph.failTestFuel g fuel D t →
      x ∈ D ∨ Sunwalker.Graph.Reaches g t x := by
  intro g fuel
  induction fuel with
  | zero => intro D t x hx; exact Or.inl hx
  | succ fuel ih =>
    intro D t x hx
    rw [Sunwalker.Graph.failTestFuel] at hx
    by_cases ht : t ∈ D
    · rw [if_pos ht] at hx; exact Or.inl hx
    · rw [if_neg ht] at hx
      rcases foldl_fail_sound g fuel _ _ x (fun a d y hy => ih a d y hy) hx with hx1 | ⟨d, hdmem, hr⟩
      · rcases List.mem_cons.mp hx1 with rfl | hx2
        · exact Or.inr (.refl x)
        · exact Or.inl hx2
      · exact Or.inr (reaches_trans (.step (.refl t) hdmem) hr)

/-- Fuel accounting: a recursive call on a dependent, with the parent freshly
inserted into the accumulator, faces a strictly smaller uncovered set. -/
lemma child_card_lt :
    ∀ (g : Sunwalker.Graph.DepGraph) (t : Nat) (D acc : List Nat) (d : Nat),
      d ∈ Sunwalker.Graph.allDeps g → t ∉ D → (∀ z ∈ t :: D, z ∈ acc) →
      ((insert d (Sunwalker.Graph.allDeps g).toFinset) \ acc.toFinset).card + 1 ≤
        ((insert t (Sunwalker.Graph.allDeps g).toFinset) \ D.toFinset).card := by
  intro g t D acc d hd htD hacc
  have hsub : (insert d (Sunwalker.Graph.allDeps g).toFinset) \ acc.toFinset ⊆
      ((insert t (Sunwalker.Graph.allDeps g).toFinset) \ D.toFinset).erase t := by
    intro z hz
    rw [Finset.mem_sdiff] at hz
    obtain ⟨hz1, hz2⟩ := hz
    have hzA : z ∈ (Sunwalker.Graph.allDeps g).toFinset := by
      rcases Finset.mem_insert.mp hz1 with rfl | h
      · exact List.mem_toFinset.mpr hd
      · exact h
    have hzacc : z ∉ acc := fun hc => hz2 (List.mem_toFinset.mpr hc)
    have hzt : z ≠ t := fun hc => hzacc (by rw [hc]; exact hacc t (by simp))
    have hznD : z ∉ D.toFinset := fun hc =>
      hzacc (hacc z (List.mem_cons_of_mem _ (List.mem_toFinset.mp hc)))
    exact Finset.mem_erase.mpr
      ⟨hzt, Finset.mem_sdiff.mpr ⟨Finset.mem_insert_of_mem hzA, hznD⟩⟩
  have htmem : t ∈ (insert t (Sunwalker.Graph.allDeps g).toFinset) \ D.toFinset :=
    Finset.mem_sdiff.mpr
      ⟨Finset.mem_insert_self _ _, fun hc => htD (List.mem_toFinset.mp hc)⟩
  have h1 := Finset.card_le_card hsub
  rw [Finset.card_erase_of_mem htmem] at h1
  have h2 : 1 ≤ ((insert t (Sunwalker.Graph.allDeps g).toFinset) \ D.toFinset).card :=
    Finset.card_pos.mpr ⟨t, htmem⟩
  omega

/-- Completeness of the DFS with sufficient fuel: the root is disabled, and
every disabled test is either pre-disabled or has all its dependents
disabled (the result is edge-closed outside the initial set). -/
lemma failTestFuel_complete :
    ∀ (g : Sunwalker.Graph.DepGraph) (fuel : Nat) (D : List Nat) (t : Nat),
      ((insert t (Sunwalker.Graph.allDeps g).toFinset) \ D.toFinset).card < fuel →
        t ∈ Sunwalker.Graph.failTestFuel g fuel D t
      ∧ (∀ x ∈ Sunwalker.Graph.failTestFuel g fuel D t,
          x ∈ D ∨ ∀ y ∈ Sunwalker.Graph.lookupDeps g x,
            y ∈ Sunwalker.Graph.failTestFuel g fuel D t) := by
  intro g fuel
  induction fuel with
  | zero => intro D t hfuel; exact absurd hfuel (by omega)
  | succ fuel ih =>
    intro D t hfuel
    rw [Sunwalker.Graph.failTestFuel]
    by_cases ht : t ∈ D
    · rw [if_pos ht]
      exact ⟨ht, fun x hx => Or.inl hx⟩
    · rw [if_neg ht]
      have FC : ∀ (l : List Nat) (acc : List Nat),
          (∀ d ∈ l, d ∈ Sunwalker.Graph.allDeps g) →
          (∀ z ∈ t :: D, z ∈ acc) →
            (∀ z ∈ acc, z ∈ l.foldl (fun a d => Sunwalker.Graph.failTestFuel g fuel a d) acc)
          ∧ (∀ d ∈ l, d ∈ l.foldl (fun a d => Sunwalker.Graph.failTestFuel g fuel a d) acc)
          ∧ (∀ x ∈ l.foldl (fun a d => Sunwalker.Graph.failTestFuel g fuel a d) acc,
              x ∈ acc ∨ ∀ y ∈ Sunwalker.Graph.lookupDeps g x,
                y ∈ l.foldl (fun a d => Sunwalker.Graph.failTestFuel g fuel a d) acc) := by
        intro l
        induction l with
        | nil =>
          intro acc _ _
          exact ⟨fun z hz => hz, fun d hd => absurd hd (List.not_mem_nil d),
            fun x hx => Or.inl hx⟩
        | cons d l ihl =>
          intro acc hdeps hacc
          have hdall : d ∈ Sunwalker.Graph.allDeps g := hdeps d (by simp)
          have hchild := child_card_lt g t D acc d hdall ht hacc
          have hfuel1 : ((insert d (Sunwalker.Graph.allDeps g).toFinset) \ acc.toFinset).card < fuel := by
            omega
          obtain ⟨hdin, hclos1⟩ := ih acc d hfuel1
          have hmono1 : acc ⊆ Sunwalker.Graph.failTestFuel g fuel acc d :=
            failTestFuel_mono g fuel acc d
          have hacc1 : ∀ z ∈ t :: D, z ∈ Sunwalker.Graph.failTestFuel g fuel acc d :=
            fun z hz => hmono1 (hacc z hz)
          obtain ⟨hsub2, hall2, hclos2⟩ :=
            ihl (Sunwalker.Graph.failTestFuel g fuel acc d) (fun x hx => hdeps x (by simp [hx])) hacc1
          refine ⟨?_, ?_, ?_⟩
          · intro z hz
            exact hsub2 z (hmono1 hz)
          · intro d' hd'
            rcases List.mem_cons.mp hd' with rfl | hd'
            · exact hsub2 d' hdin
            · exact hall2 d' hd'
          · intro x hx
            rcases hclos2 x hx with hx1 | hys
            · rcases hclos1 x hx1 with hx2 | hys1
              · exact Or.inl hx2
              · exact Or.inr (fun y hy => hsub2 y (hys1 y hy))
            · exact Or.inr hys
      obtain ⟨hsub, hall, hclos⟩ :=
        FC (Sunwalker.Graph.lookupDeps g t) (t :: D)
          (fun d hd => lookupDeps_sub_allDeps g t d hd) (fun z hz => hz)
      refine ⟨hsub t (by simp), ?_⟩
      intro x hx
      rcases hclos x hx with hx1 | hys
      · rcases List.mem_cons.mp hx1 with rfl | hx2
        · exact Or.inr hall
        · exact Or.inl hx2
      · exact Or.inr hys

/-- The canonical fuel is always sufficient. -/
lemma card_lt_failFuel :
    ∀ (g : Sunwalker.Graph.DepGraph) (t : Nat) (D : List Nat),
      ((insert t (Sunwalker.Graph.allDeps g).toFinset) \ D.toFinset).card <
        Sunwalker.Graph.failFuel g t := by
  intro g t D
  rw [Sunwalker.Graph.failFuel]
  have := Finset.card_le_card
    (Finset.sdiff_subset (s := insert t (Sunwalker.Graph.allDeps g).toFinset) (t := D.toFinset))
  omega

/-- Characterization of one fail_test call over an edge-closed disabled set:
a test is disabled afterwards iff it was disabled before or is reachable
from the failed test. -/
lemma fail_test_char :
    ∀ (g : Sunwalker.Graph.DepGraph) (D : List Nat) (t : Nat),
      (∀ x ∈ D, ∀ y ∈ Sunwalker.Graph.lookupDeps g x, y ∈ D) →
      ∀ x, x ∈ Sunwalker.Graph.fail_test g D t ↔ x ∈ D ∨ Sunwalker.Graph.Reaches g t x := by
  intro g D t hclosed x
  constructor
  · exact failTestFuel_sound g _ D t x
  · intro hx
    rcases hx with hx | hr
    · exact failTestFuel_mono g _ D t hx
    · obtain ⟨hroot, hclos⟩ := failTestFuel_complete g _ D t (card_lt_failFuel g t D)
      induction hr with
      | refl => exact hroot
      | step hr1 hw ih =>
        rcases hclos _ ih with hvD | hys
        · exact failTestFuel_mono g _ D t (hclosed _ hvD _ hw)
        · exact hys _ hw

/-- fail_test keeps the disabled set edge-closed. -/
lemma fail_test_closed :
    ∀ (g : Sunwalker.Graph.DepGraph) (D : List Nat) (t : Nat),
      (∀ x ∈ D, ∀ y ∈ Sunwalker.Graph.lookupDeps g x, y ∈ D) →
      ∀ x ∈ Sunwalker.Graph.fail_test g D t,
        ∀ y ∈ Sunwalker.Graph.lookupDeps g x, y ∈ Sunwalker.Graph.fail_test g D t := by
  intro g D t hclosed x hx y hy
  rcases (fail_test_char g D t hclosed x).mp hx with hxD | hxr
  · exact (fail_test_char g D t hclosed y).mpr (Or.inl (hclosed x hxD y hy))
  · exact (fail_test_char g D t hclosed y).mpr (Or.inr (.step hxr hy))

/-- A sequence of fail_test calls over an edge-closed set disables exactly
the tests reachable from a failed test, beyond those already disabled. -/
lemma runFails_aux :
    ∀ (g : Sunwalker.Graph.DepGraph) (ts : List Nat) (D : List Nat),
      (∀ x ∈ D, ∀ y ∈ Sunwalker.Graph.lookupDeps g x, y ∈ D) →
      (∀ u, u ∈ ts.foldl (fun d t => Sunwalker.Graph.fail_test g d t) D ↔
        u ∈ D ∨ ∃ t ∈ ts, Sunwalker.Graph.Reaches g t u)
      ∧ (∀ x ∈ ts.foldl (fun d t => Sunwalker.Graph.fail_test g d t) D,
          ∀ y ∈ Sunwalker.Graph.lookupDeps g x,
            y ∈ ts.foldl (fun d t => Sunwalker.Graph.fail_test g d t) D) := by
  intro g ts
  induction ts with
  | nil =>
    intro D hclosed
    exact ⟨fun u => by simp, hclosed⟩
  | cons t ts ih =>
    intro D hclosed
    have hclosed1 := fail_test_closed g D t hclosed
    obtain ⟨hchar, hclos⟩ := ih (Sunwalker.Graph.fail_test g D t) hclosed1
    constructor
    · intro u
      rw [List.foldl_cons, hchar u, fail_test_char g D t hclosed u]
      constructor
      · rintro ((hu | hr) | ⟨t1, ht1, hr⟩)
        · exact Or.inl hu
        · exact Or.inr ⟨t, by simp, hr⟩
        · exact Or.inr ⟨t1, by simp [ht1], hr⟩
      · rintro (hu | ⟨t1, ht1, hr⟩)
        · exact Or.inl (Or.inl hu)
        · rcases List.mem_cons.mp ht1 with rfl | ht1
          · exact Or.inl (Or.inr hr)
          · exact Or.inr ⟨t1, ht1, hr⟩
    · exact hclos

/-- One extra unit of fuel beyond a sufficient amount changes nothing. -/
lemma failTestFuel_step_eq :
    ∀ (g : Sunwalker.Graph.DepGraph) (fuel : Nat) (D : List Nat) (t : Nat),
      ((insert t (Sunwalker.Graph.allDeps g).toFinset) \ D.toFinset).card < fuel →
      Sunwalker.Graph.failTestFuel g (fuel + 1) D t =
        Sunwalker.Graph.failTestFuel g fuel D t := by
  intro g fuel
  induction fuel with
  | zero => intro D t hfuel; exact absurd hfuel (by omega)
  | succ fuel ih =>
    intro D t hfuel
    rw [Sunwalker.Graph.failTestFuel, Sunwalker.Graph.failTestFuel]
    by_cases ht : t ∈ D
    · rw [if_pos ht, if_pos ht]
    · rw [if_neg ht, if_neg ht]
      have FE : ∀ (l : List Nat) (acc : List Nat),
          (∀ d ∈ l, d ∈ Sunwalker.Graph.allDeps g) →
          (∀ z ∈ t :: D, z ∈ acc) →
          l.foldl (fun a d => Sunwalker.Graph.failTestFuel g (fuel + 1) a d) acc =
            l.foldl (fun a d => Sunwalker.Graph.failTestFuel g fuel a d) acc := by
        intro l
        induction l with
        | nil => intro acc _ _; rfl
        | cons d l ihl =>
          intro acc hdeps hacc
          have hdall : d ∈ Sunwalker.Graph.allDeps g := hdeps d (by simp)
          have hchild := child_card_lt g t D acc d hdall ht hacc
          have hfuel1 : ((insert d (Sunwalker.Graph.allDeps g).toFinset) \ acc.toFinset).card < fuel := by
            omega
          have hstep := ih acc d hfuel1
          rw [List.foldl_cons, List.foldl_cons, hstep]
          exact ihl (Sunwalker.Graph.failTestFuel g fuel acc d)
            (fun x hx => hdeps x (by simp [hx]))
            (fun z hz => failTestFuel_mono g fuel acc d (hacc z hz))
      exact FE (Sunwalker.Graph.lookupDeps g t) (t :: D)
        (fun d hd => lookupDeps_sub_allDeps g t d hd) (fun z hz => hz)

/-- Any fuel at or above the canonical bound computes exactly fail_test: the
recursion has stabilized, which is the termination of the Rust recursion. -/
lemma failTestFuel_stable :
    ∀ (g : Sunwalker.Graph.DepGraph) (t : Nat) (D : List Nat) (fuel : Nat),
      Sunwalker.Graph.failFuel g t ≤ fuel →
      Sunwalker.Graph.failTestFuel g fuel D t = Sunwalker.Graph.fail_test g D t := by
  intro g t D fuel hle
  induction fuel, hle using Nat.le_induction with
  | base => rfl
  | succ fuel hle ih =>
    rw [failTestFuel_step_eq g fuel D t
      (lt_of_lt_of_le (card_lt_failFuel g t D) hle), ih]

/-- C10: after any sequence of fail_test calls on a freshly instantiated
graph, a test u is disabled — is_test_enabled u returns false — iff u is
reachable along dependents_of edges from some failed test (each test
reaching itself); fail_test never re-enables a disabled test; and the
recursion terminates on every graph, cycles included: beyond the canonical
fuel bound, adding fuel leaves the computation unchanged, because disabled
tests are not revisited. -/
theorem c10_fail_test_reachability :
    ∀ (g : Sunwalker.Graph.DepGraph) (ts : List Nat) (u : Nat) (D : List Nat) (t : Nat)
      (fuel : Nat),
      (Sunwalker.Graph.is_test_enabled (Sunwalker.Graph.runFails g ts) u = false ↔
        ∃ t0 ∈ ts, Sunwalker.Graph.Reaches g t0 u)
    ∧ (∀ x ∈ D, x ∈ Sunwalker.Graph.fail_test g D t)
    ∧ (Sunwalker.Graph.failFuel g t ≤ fuel →
        Sunwalker.Graph.failTestFuel g fuel D t = Sunwalker.Graph.fail_test g D t) := by
  intro g ts u D t fuel
  refine ⟨?_, fun x hx => failTestFuel_mono g _ D t hx, failTestFuel_stable g t D fuel⟩
  have hchar := (runFails_aux g ts [] (by intro x hx; exact absurd hx (List.not_mem_nil x))).1 u
  have hmem : u ∈ Sunwalker.Graph.runFails g ts ↔
      ∃ t0 ∈ ts, Sunwalker.Graph.Reaches g t0 u := by
    rw [Sunwalker.Graph.runFails, hchar]
    simp
  have hbool : Sunwalker.Graph.is_test_enabled (Sunwalker.Graph.runFails g ts) u = false ↔
      u ∈ Sunwalker.Graph.runFails g ts := by
    rw [Sunwalker.Graph.is_test_enabled]
    simp
  rw [hbool, hmem]

end Sunwalker
